import Mathlib

/-!
Verification of the SDM processor-topology enumeration sample.

This file gives a shallow embedding of the topology-decoding core
(`cpuid_topology_tools.c`, `cpuid_topology_parsecpu.c`,
`cpuid_topology_parsecachetlb.c`) and proves or refutes the spec claims.

Machine integers are modelled as `Nat` with explicit reduction modulo 2^32
where the C code overflows or complements 32-bit values.  Arrays indexed by
a running counter are modelled as functions `Nat → _` with pointwise update,
or as `List`s where the array together with its element count behaves as a
growable sequence.  Display-only fields (size strings, derived attribute
booleans used only for printing) are omitted; every field that any claim
reads or writes is kept.
-/

/-- One CPUID result: the four 32-bit registers EAX, EBX, ECX, EDX
(`CPUID_REGISTERS` in `cpuid_topology.h`).  `memcmp` equality of the C
struct is value equality of the four fields. -/
structure Regs where
  eax : Nat
  ebx : Nat
  ecx : Nat
  edx : Nat
deriving DecidableEq, Repr

/-- The all-zero register snapshot (`memset(p, 0, sizeof(CPUID_REGISTERS))`). -/
def Regs.zero : Regs := ⟨0, 0, 0, 0⟩

/-- 2^32, the modulus of `unsigned int` arithmetic. -/
def U32MOD : Nat := 4294967296

/-- 32-bit complement `~x` of a value already reduced mod 2^32 (C `~` on
`unsigned int`).  XOR with the all-ones 32-bit word after reducing. -/
def not32 (x : Nat) : Nat := (x % U32MOD) ^^^ 4294967295

/--
`Tools_CreateTopologyShift` (`cpuid_topology_tools.c:118`).

The C routine sets `count = count*2 - 1` in `unsigned int` arithmetic
(`(2*count + 2^32 - 1) % 2^32`, which also matches the wraparound at
`count = 0`), then scans from bit 31 downward for the highest set bit and
returns its position.  If no bit is found the C `Shift--` underflows and the
routine returns `0xFFFFFFFF`; this can only happen for `count*2 - 1 = 0`,
which never occurs since the reduced value is always odd.
-/
def topologyShiftLoop (c : Nat) : Nat → Nat
  | 0 => if c &&& (1 <<< 0) ≠ 0 then 0 else 4294967295
  | s + 1 => if c &&& (1 <<< (s + 1)) ≠ 0 then s + 1 else topologyShiftLoop c s

/-- See `topologyShiftLoop`; the loop starts at bit 31. -/
def Tools_CreateTopologyShift (count : Nat) : Nat :=
  topologyShiftLoop ((2 * count + 4294967295) % U32MOD) 31

/-- `MAX_PROCESSORS` (`cpuid_topology.h`). -/
def MAX_PROCESSORS : Nat := 1024

/-- `MAX_SIMULATED_LEAFS` (`cpuid_topology.h`). -/
def MAX_SIMULATED_LEAFS : Nat := 32

/-- `MAX_SIMULATED_SUBLEAFS` (`cpuid_topology.h`). -/
def MAX_SIMULATED_SUBLEAFS : Nat := 10

/-- `MAX_CACHE_PER_LP` (`cpuid_topology.h`). -/
def MAX_CACHE_PER_LP : Nat := 10

/--
The simulated-mode global state (`GLOBAL_DATA` in `cpuid_topology.h`,
restricted to `UseNativeCpuid == BOOL_FALSE`; the native branch only
delegates to the opaque OS primitives and is outside the embedding).
The fixed-size C tables become functions from indices to values.
-/
structure GlobalData where
  simulatedCpuid : Nat → Nat → Regs
  simulatedCpuidLeaf4 : Nat → Nat → Regs
  simulatedCpuidLeaf18 : Nat → Nat → Regs
  simulatedApicIds : Nat → Nat
  numberOfSimulatedProcessors : Nat
  currentProcessorAffinity : Nat

/--
`Tools_ReadCpuid` (`cpuid_topology_tools.c:41`), simulated branch.

The output is zeroed first; only leaf < `MAX_SIMULATED_LEAFS` and
subleaf < `MAX_SIMULATED_SUBLEAFS` fill it.  Leaf 4 (`0x4`) and leaf 24
(`0x18`) dispatch to the per-processor asymmetric tables; otherwise the
shared table is used, EDX is rebuilt with the current processor's APIC id
for leaves 0xB/0x1F when EBX is non-zero, and for leaf 1 the APIC id is
spliced into ECX bits [31:24] (as the source does).
-/
def Tools_ReadCpuid (g : GlobalData) (leaf subleaf : Nat) : Regs :=
  if leaf < MAX_SIMULATED_LEAFS then
    if subleaf < MAX_SIMULATED_SUBLEAFS then
      if leaf = 4 then
        g.simulatedCpuidLeaf4 g.currentProcessorAffinity subleaf
      else if leaf = 24 then
        g.simulatedCpuidLeaf18 g.currentProcessorAffinity subleaf
      else
        let r := g.simulatedCpuid leaf subleaf
        let r1 :=
          if (leaf = 11 ∨ leaf = 31) ∧ r.ebx ≠ 0 then
            { r with edx := g.simulatedApicIds g.currentProcessorAffinity }
          else r
        if leaf = 1 then
          { r1 with ecx :=
              ((r1.ecx &&& not32 (255 <<< 24)) |||
               ((g.simulatedApicIds g.currentProcessorAffinity) <<< 24)) % U32MOD }
        else r1
    else Regs.zero
  else Regs.zero

/-- `Tools_SetAffinity` (`cpuid_topology_tools.c:171`), simulated branch:
only an existing processor number changes the bound affinity. -/
def Tools_SetAffinity (g : GlobalData) (processorNumber : Nat) : GlobalData :=
  if processorNumber < g.numberOfSimulatedProcessors then
    { g with currentProcessorAffinity := processorNumber }
  else g

/-- `Tools_GetNumberOfProcessors` (`cpuid_topology_tools.c:200`), simulated
branch. -/
def Tools_GetNumberOfProcessors (g : GlobalData) : Nat :=
  g.numberOfSimulatedProcessors

/--
The per-processor strategy cascade inside the loop of
`Tools_GatherPlatformApicIds` (`cpuid_topology_tools.c:287`): with `regs0`
the leaf-0 snapshot read before the loop, try leaf 0x1F (EDX when EBX is
non-zero), then leaf 0xB likewise, then fall back to bits [31:24] of EBX of
leaf 1.  The `bApicIdFound` flag of the source collapses to this cascade.
-/
def gatherApicIdAt (g : GlobalData) (regs0 : Regs) : Nat :=
  if 31 ≤ regs0.eax ∧ (Tools_ReadCpuid g 31 0).ebx ≠ 0 then
    (Tools_ReadCpuid g 31 0).edx
  else if 11 ≤ regs0.eax ∧ (Tools_ReadCpuid g 11 0).ebx ≠ 0 then
    (Tools_ReadCpuid g 11 0).edx
  else
    (Tools_ReadCpuid g 1 0).ebx >>> 24

/-- The `for (Index ...)` loop of `Tools_GatherPlatformApicIds`: `n` more
iterations starting at processor `idx`, threading the affinity state. -/
def gatherAux (regs0 : Regs) : Nat → Nat → GlobalData → List Nat
  | 0, _, _ => []
  | n + 1, idx, g =>
    let g1 := Tools_SetAffinity g idx
    gatherApicIdAt g1 regs0 :: gatherAux regs0 n (idx + 1) g1

/--
`Tools_GatherPlatformApicIds` (`cpuid_topology_tools.c:266`): the processor
count is capped at `MAX_PROCESSORS`, leaf 0 is read once up front, and the
loop fills one APIC id per processor index below both the capped count and
the array size.  The returned list is the filled array prefix; its length
is the source's return value `Index`.
-/
def Tools_GatherPlatformApicIds (g : GlobalData) (arraySize : Nat) : List Nat :=
  let numberOfProcessors :=
    if Tools_GetNumberOfProcessors g > MAX_PROCESSORS then MAX_PROCESSORS
    else Tools_GetNumberOfProcessors g
  let regs0 := Tools_ReadCpuid g 0 0
  gatherAux regs0 (min numberOfProcessors arraySize) 0 g

/-- Domain type field of a topology subleaf: `ECX[15:8]`
(`cpuid_topology_parsecpu.c:179`). -/
def domainTypeOf (r : Regs) : Nat := (r.ecx >>> 8) &&& 255

/-- Domain shift field of a topology subleaf: `EAX[4:0]`
(`cpuid_topology_parsecpu.c:184`). -/
def domainShiftOf (r : Regs) : Nat := r.eax &&& 31

/--
The body and loop of `ParseCpu_CpuidThreeDomainExample`
(`cpuid_topology_parsecpu.c:159`), with the enumerated subleaf snapshots
supplied as a list (a read past the end of the list is the zero snapshot,
exactly what the simulated CPUID returns past the stored subleafs).  The
accumulators are `PackageShift` and `LogicalProcessorShift`; the loop stops
at the first subleaf whose EBX is zero.  The switch keeps the shift when
the domain type is `LogicalProcessorDomain` (1); `InvalidDomain` (0) and
all other types fall through; `PackageShift` takes every subleaf's shift.
-/
def threeDomainLoop : List Regs → Nat → Nat → Nat × Nat
  | [], packageShift, logicalProcessorShift => (packageShift, logicalProcessorShift)
  | r :: rest, packageShift, logicalProcessorShift =>
    if r.ebx = 0 then (packageShift, logicalProcessorShift)
    else
      threeDomainLoop rest (domainShiftOf r)
        (if domainTypeOf r = 1 then domainShiftOf r else logicalProcessorShift)

/-- `ParseCpu_CpuidThreeDomainExample` as a function from the subleaf
sequence to the displayed pair `(PackageShift, LogicalProcessorShift)`;
both start at 0. -/
def ParseCpu_CpuidThreeDomainExample (subleafs : List Regs) : Nat × Nat :=
  threeDomainLoop subleafs 0 0

/-- Pointwise update of a `Nat`-indexed array modelled as a function
(a C `a[i] = v` store). -/
def updFn (f : Nat → Nat) (i v : Nat) : Nat → Nat :=
  fun k => if k = i then v else f k

/--
The fields of `APICID_BIT_LAYOUT_CTX` that the many-domain decoding loop
mutates (`ShiftValues`, `ShiftValueDomain`, `PackageDomainIndex`); the mask
matrix is built afterwards by `ParseCpu_Internal_CreateDomainMaskMatrix`
from exactly these fields, and the remaining fields are display-only.
-/
structure ManyDomainCtx where
  shiftValues : Nat → Nat
  shiftValueDomain : Nat → Nat
  packageDomainIndex : Nat

/-- The zero-initialized context (`memset` in
`ParseCpu_CpuidManyDomainExample`). -/
def ManyDomainCtx.init : ManyDomainCtx :=
  ⟨fun _ => 0, fun _ => 0, 0⟩

/--
One iteration of the `while` loop of `ParseCpu_CpuidManyDomainExample`
(`cpuid_topology_parsecpu.c:259`): the switch appends a new
shift/type pair at `PackageDomainIndex` for the seven known domain codes
0..6 (`InvalidDomain` through `DieGrpDomain`), and for any other code
overwrites `ShiftValues[PackageDomainIndex-1]` (C unsigned arithmetic;
the source relies on the first subleaf being `LogicalProcessorDomain`, so
the index is at least 1 there).
-/
def manyDomainStep (ctx : ManyDomainCtx) (r : Regs) : ManyDomainCtx :=
  let dt := domainTypeOf r
  let ds := domainShiftOf r
  if dt = 0 ∨ dt = 1 ∨ dt = 2 ∨ dt = 3 ∨ dt = 4 ∨ dt = 5 ∨ dt = 6 then
    { shiftValues := updFn ctx.shiftValues ctx.packageDomainIndex ds,
      shiftValueDomain := updFn ctx.shiftValueDomain ctx.packageDomainIndex dt,
      packageDomainIndex := ctx.packageDomainIndex + 1 }
  else
    { ctx with shiftValues := updFn ctx.shiftValues (ctx.packageDomainIndex - 1) ds }

/-- The `while` loop of `ParseCpu_CpuidManyDomainExample` over the subleaf
sequence: stop at the first subleaf with zero EBX, else apply the switch
and continue. -/
def manyDomainParse : List Regs → ManyDomainCtx → ManyDomainCtx
  | [], ctx => ctx
  | r :: rest, ctx =>
    if r.ebx = 0 then ctx else manyDomainParse rest (manyDomainStep ctx r)

/-- The appended (type, shift) level list a `ManyDomainCtx` represents:
entries `0 ..< PackageDomainIndex` of the two arrays, in order. -/
def ManyDomainCtx.levels (ctx : ManyDomainCtx) : List (Nat × Nat) :=
  (List.range ctx.packageDomainIndex).map
    (fun i => (ctx.shiftValueDomain i, ctx.shiftValues i))

/-- Pointwise update of a matrix modelled as a function
(a C `m[i][j] = v` store). -/
def updMat (m : Nat → Nat → Nat) (i j v : Nat) : Nat → Nat → Nat :=
  fun a b => if a = i ∧ b = j then v else m a b

/-- The first loop of `ParseCpu_Internal_CreateDomainMaskMatrix`
(`cpuid_topology_parsecpu.c:332`): `steps` remaining iterations from
index `i`, with `prev` the running `PreviousBit`; each iteration stores
`~((1 << PreviousBit) - 1)` at the diagonal and then advances
`PreviousBit` to `ShiftValues[i]`. -/
def diagAux (shifts : Nat → Nat) : Nat → Nat → Nat → (Nat → Nat → Nat) → (Nat → Nat → Nat)
  | 0, _, _, m => m
  | steps + 1, i, prev, m =>
    diagAux shifts steps (i + 1) (shifts i) (updMat m i i (not32 ((1 <<< prev) - 1)))

/-- The inner loop of the second phase of
`ParseCpu_Internal_CreateDomainMaskMatrix` (`cpuid_topology_parsecpu.c:363`):
`steps` remaining values of `NextDomainIndex` starting at `j`, storing
`(~m[j][j]) & m[i][i]` at `(i, j)`. -/
def offdiagInner (i : Nat) : Nat → Nat → (Nat → Nat → Nat) → (Nat → Nat → Nat)
  | 0, _, m => m
  | steps + 1, j, m =>
    offdiagInner i steps (j + 1) (updMat m i j (not32 (m j j) &&& m i i))

/-- The outer loop of the second phase
(`cpuid_topology_parsecpu.c:341`): `steps` remaining values of
`DomainIndex` starting at `i`; the inner loop runs `NextDomainIndex`
from `i+1` up to `n` inclusive, i.e. `n - i` iterations. -/
def offdiagAux (n : Nat) : Nat → Nat → (Nat → Nat → Nat) → (Nat → Nat → Nat)
  | 0, _, m => m
  | steps + 1, i, m =>
    offdiagAux n steps (i + 1) (offdiagInner i (n - i) (i + 1) m)

/--
`ParseCpu_Internal_CreateDomainMaskMatrix`
(`cpuid_topology_parsecpu.c:321`), acting on the `DomainRelativeMasks`
matrix `m0` of a context whose `ShiftValues` are `shifts` and whose
`PackageDomainIndex` is `n`: the diagonal loop runs `DomainIndex` from 0
to `n` inclusive (`n + 1` iterations) with `PreviousBit` starting at 0,
and the relative-mask phase runs `DomainIndex` from 0 to `n - 1`.
-/
def ParseCpu_Internal_CreateDomainMaskMatrix
    (shifts : Nat → Nat) (n : Nat) (m0 : Nat → Nat → Nat) : Nat → Nat → Nat :=
  offdiagAux n n 0 (diagAux shifts (n + 1) 0 0 m0)

/-- `INVALID_CACHE_INDEX` / `INVALID_TLB_INDEX` (`cpuid_topology.h`):
`(unsigned int)-1`. -/
def INVALID_CACHE_INDEX : Nat := 4294967295

/--
One `CPUID_CACHE_INFO` entry (`cpuid_topology.h`), restricted to the fields
the grouping algorithm reads or that identify the group: the generated id,
the mask it came from, the full descriptive snapshot compared by `memcmp`,
and the member APIC-id array together with its count, modelled as a list.
The purely descriptive fields (`CacheType`, `CacheWays`, ...) are decoded
projections of `cachedCpuidRegisters` used only for display.
-/
structure CacheEntry where
  cacheId : Nat
  cacheMask : Nat
  cachedCpuidRegisters : Regs
  members : List Nat
deriving DecidableEq, Repr

/--
`ParseCache_Internal_FindMatchingCacheEntry`
(`cpuid_topology_parsecachetlb.c:250`): first index whose entry has the
requested `CacheId` and whose stored snapshot is `memcmp`-equal to the
probe, else `INVALID_CACHE_INDEX`.  (`ParseTlb_Internal_FindMatchingTlbEntry`
at line 543 is the same function over the TLB entry type.)
-/
def ParseCache_Internal_FindMatchingCacheEntry : List CacheEntry → Nat → Regs → Nat
  | [], _, _ => INVALID_CACHE_INDEX
  | e :: rest, cacheId, r =>
    if e.cacheId = cacheId ∧ e.cachedCpuidRegisters = r then 0
    else
      let t := ParseCache_Internal_FindMatchingCacheEntry rest cacheId r
      if t = INVALID_CACHE_INDEX then INVALID_CACHE_INDEX else t + 1

/--
`ParseCache_Internal_AddCacheEntry` (`cpuid_topology_parsecachetlb.c:288`):
unconditionally fills the slot at index `*pNumberOfCaches` (there is no
capacity test anywhere in the routine), increments the count, and returns
the new index.  The new entry stores the id, the mask and the snapshot and
starts with zero sharing processors.
-/
def ParseCache_Internal_AddCacheEntry
    (entries : List CacheEntry) (cacheId cacheMask : Nat) (r : Regs) :
    Nat × List CacheEntry :=
  (entries.length,
   entries ++ [{ cacheId := cacheId, cacheMask := cacheMask,
                 cachedCpuidRegisters := r, members := [] }])

/-- Apply `f` to the element at index `i` (a C in-place field update of
one array slot). -/
def listModify {α : Type} : List α → Nat → (α → α) → List α
  | [], _, _ => []
  | e :: rest, 0, f => f e :: rest
  | e :: rest, n + 1, f => e :: listModify rest n f

/-- Record one sharing processor on entry `i`
(`pCacheInfo[i].ListOfApicIDsSharingThisCache[count] = apicId; count++`). -/
def appendMemberAt (entries : List CacheEntry) (i apicId : Nat) : List CacheEntry :=
  listModify entries i (fun e => { e with members := e.members ++ [apicId] })

/-- `MaxAddressibleIdSharingCache = ((EAX >> 14) & 0xFFF) + 1`
(`cpuid_topology_parsecachetlb.c:131`). -/
def maxIdsSharingCache (r : Regs) : Nat := ((r.eax >>> 14) &&& 4095) + 1

/-- `CacheMask = ~((1 << CacheShift) - 1)` with
`CacheShift = Tools_CreateTopologyShift(MaxAddressibleIdSharingCache)`
(`cpuid_topology_parsecachetlb.c:139`). -/
def cacheMaskOf (r : Regs) : Nat :=
  not32 ((1 <<< Tools_CreateTopologyShift (maxIdsSharingCache r)) - 1)

/-- `CacheId = ApicIdList[ProcessorIndex] & CacheMask`
(`cpuid_topology_parsecachetlb.c:173`). -/
def cacheGroupId (apicId : Nat) (r : Regs) : Nat := apicId &&& cacheMaskOf r

/--
One iteration of the cache subleaf loop of `ParseCache_CpuidCacheExample`
(`cpuid_topology_parsecachetlb.c:173-206`) for one processor's subleaf
snapshot `r` and APIC id `apicId`: derive mask and id, look the group up,
add it when absent, and record the processor on the resulting index when
that index is not `INVALID_CACHE_INDEX` (the guard from the source; the
add path's index is its list length, so the guard only fails on the
sentinel value).
-/
def processCacheSubleaf (entries : List CacheEntry) (apicId : Nat) (r : Regs) :
    List CacheEntry :=
  let cacheId := cacheGroupId apicId r
  let found := ParseCache_Internal_FindMatchingCacheEntry entries cacheId r
  let step :=
    if found = INVALID_CACHE_INDEX then
      ParseCache_Internal_AddCacheEntry entries cacheId (cacheMaskOf r) r
    else (found, entries)
  if step.1 ≠ INVALID_CACHE_INDEX then appendMemberAt step.2 step.1 apicId
  else step.2

/-- The group index a call to `processCacheSubleaf` records membership on:
the found index, or the fresh index (the current group count) on the add
path. -/
def cacheIndexUsed (entries : List CacheEntry) (apicId : Nat) (r : Regs) : Nat :=
  let found := ParseCache_Internal_FindMatchingCacheEntry entries (cacheGroupId apicId r) r
  if found = INVALID_CACHE_INDEX then entries.length else found

/-- Total number of recorded sharing processors over all groups. -/
def totalMembers (entries : List CacheEntry) : Nat :=
  (entries.map (fun e => e.members.length)).sum

/-! ## C1: the shift calculator -/

lemma and_one_shl_ne_zero_iff (c k : Nat) : c &&& (1 <<< k) ≠ 0 ↔ c.testBit k := by
  rw [Nat.one_shiftLeft, Nat.and_two_pow]
  rcases h : c.testBit k with _ | _
  · simp [h]
  · simp [h]

lemma testBit_true_of_ge (c k : Nat) (h1 : 2 ^ k ≤ c) (h2 : c < 2 ^ (k + 1)) :
    c.testBit k := by
  rw [Nat.testBit_to_div_mod]
  have hdiv : c / 2 ^ k = 1 := by
    apply Nat.div_eq_of_lt_le (by simpa using h1)
    simpa [pow_succ, mul_comm] using h2
  simp [hdiv]

/-- The bit-scan loop finds the highest set bit: for `0 < c < 2^(s+1)` the
result `t` satisfies `2^t ≤ c < 2^(t+1)`. -/
lemma topologyShiftLoop_spec (s : Nat) : ∀ c, 0 < c → c < 2 ^ (s + 1) →
    2 ^ (topologyShiftLoop c s) ≤ c ∧ c < 2 ^ (topologyShiftLoop c s + 1) := by
  induction s with
  | zero =>
    intro c h0 h1
    have hc : c = 1 := by omega
    subst hc
    simp [topologyShiftLoop]
  | succ s ih =>
    intro c h0 h1
    rw [topologyShiftLoop]
    by_cases hb : c &&& (1 <<< (s + 1)) ≠ 0
    · have ht : c.testBit (s + 1) := (and_one_shl_ne_zero_iff c (s + 1)).mp hb
      have hge : 2 ^ (s + 1) ≤ c := by
        by_contra hlt
        push_neg at hlt
        exact absurd ht (by simp [Nat.testBit_lt_two_pow hlt])
      simp [hb, hge, h1]
    · have ht : ¬ c.testBit (s + 1) := fun h => hb ((and_one_shl_ne_zero_iff c (s + 1)).mpr h)
      have hlt : c < 2 ^ (s + 1) := by
        by_contra hge
        push_neg at hge
        exact ht (testBit_true_of_ge c (s + 1) hge h1)
      rw [if_neg hb]
      exact ih c h0 hlt

/-- In the overflow-free range `1 ≤ count ≤ 2^31` the shift calculator
returns the least `s` with `count ≤ 2^s`. -/
lemma createTopologyShift_spec (count : Nat) (h1 : 1 ≤ count) (h2 : count ≤ 2 ^ 31) :
    count ≤ 2 ^ (Tools_CreateTopologyShift count) ∧
    ∀ s, count ≤ 2 ^ s → Tools_CreateTopologyShift count ≤ s := by
  have hc : (2 * count + 4294967295) % U32MOD = 2 * count - 1 := by
    have hsplit : 2 * count + 4294967295 = (2 * count - 1) + 1 * 4294967296 := by omega
    unfold U32MOD
    rw [hsplit, Nat.add_mul_mod_self_right]
    apply Nat.mod_eq_of_lt
    have : count ≤ 2147483648 := h2
    omega
  unfold Tools_CreateTopologyShift
  rw [hc]
  have h0 : 0 < 2 * count - 1 := by omega
  have hlt : 2 * count - 1 < 2 ^ (31 + 1) := by
    have h2' : count ≤ 2147483648 := h2
    have : (2 : Nat) ^ (31 + 1) = 4294967296 := by norm_num
    omega
  obtain ⟨hle, hlt2⟩ := topologyShiftLoop_spec 31 (2 * count - 1) h0 hlt
  constructor
  · have : 2 * count - 1 < 2 * 2 ^ (topologyShiftLoop (2 * count - 1) 31) := by
      calc 2 * count - 1 < 2 ^ (topologyShiftLoop (2 * count - 1) 31 + 1) := hlt2
        _ = 2 * 2 ^ (topologyShiftLoop (2 * count - 1) 31) := by ring
    omega
  · intro s hs
    have hlt3 : 2 ^ (topologyShiftLoop (2 * count - 1) 31) < 2 ^ (s + 1) := by
      calc 2 ^ (topologyShiftLoop (2 * count - 1) 31) ≤ 2 * count - 1 := hle
        _ < 2 ^ (s + 1) := by
            have : 2 ^ (s + 1) = 2 * 2 ^ s := by ring
            omega
    have := (Nat.pow_lt_pow_iff_right (by norm_num : 1 < 2)).mp hlt3
    omega

/-- C1, counterexample: the claim quantifies over every `count ≥ 1`, but
`count` is a 32-bit value and `count*2 - 1` wraps: at
`count = 2^31 + 1 = 2147483649` the routine returns 0, and `1 << 0 = 1` is
not `≥ count`, so the returned value satisfies the claimed property at no
reading (the true least such `s` would be 32). -/
theorem claim_C1_counterexample :
    1 ≤ 2147483649 ∧ Tools_CreateTopologyShift 2147483649 = 0 ∧
    ¬ (2147483649 ≤ 1 <<< Tools_CreateTopologyShift 2147483649) := by
  refine ⟨by decide, by decide, ?_⟩
  decide

/-- C1 (amended): for every `count` with `1 ≤ count ≤ 2^31` — the
overflow-free range of the 32-bit computation `count*2 - 1` —
`Tools_CreateTopologyShift count` is the smallest `s` with
`(1 <<< s) ≥ count`; in particular the five concrete values of the claim
hold. -/
theorem claim_C1_shift_smallest :
    (∀ count, 1 ≤ count → count ≤ 2 ^ 31 →
      count ≤ 1 <<< Tools_CreateTopologyShift count ∧
      ∀ s, count ≤ 1 <<< s → Tools_CreateTopologyShift count ≤ s) ∧
    Tools_CreateTopologyShift 1 = 0 ∧ Tools_CreateTopologyShift 2 = 1 ∧
    Tools_CreateTopologyShift 3 = 2 ∧ Tools_CreateTopologyShift 4 = 2 ∧
    Tools_CreateTopologyShift 5 = 3 := by
  refine ⟨?_, by decide, by decide, by decide, by decide, by decide⟩
  intro count h1 h2
  obtain ⟨hge, hmin⟩ := createTopologyShift_spec count h1 h2
  refine ⟨by simpa [Nat.one_shiftLeft] using hge, ?_⟩
  intro s hs
  exact hmin s (by simpa [Nat.one_shiftLeft] using hs)

/-- C1 witness: the amended theorem applied at `count = 5`. -/
theorem claim_C1_shift_smallest_witness :
    1 ≤ 5 ∧ (5 : Nat) ≤ 2 ^ 31 ∧
    (5 ≤ 1 <<< Tools_CreateTopologyShift 5 ∧
     ∀ s, 5 ≤ 1 <<< s → Tools_CreateTopologyShift 5 ≤ s) :=
  ⟨by decide, by norm_num, claim_C1_shift_smallest.1 5 (by decide) (by norm_num)⟩

/-! ## C9, C10: simulated-mode read and affinity bounds -/

/-- A concrete empty simulated state, used by the closed witnesses. -/
def gZero : GlobalData :=
  ⟨fun _ _ => Regs.zero, fun _ _ => Regs.zero, fun _ _ => Regs.zero,
   fun _ => 0, 0, 0⟩

/-- C9: a simulated read whose leaf is at least `MAX_SIMULATED_LEAFS`
(0x20) or whose subleaf is at least `MAX_SIMULATED_SUBLEAFS` (10) returns
the zeroed snapshot, for every state (hence every current affinity). -/
theorem claim_C9_out_of_range_reads_zero (g : GlobalData) (leaf subleaf : Nat)
    (h : MAX_SIMULATED_LEAFS ≤ leaf ∨ MAX_SIMULATED_SUBLEAFS ≤ subleaf) :
    Tools_ReadCpuid g leaf subleaf = Regs.zero := by
  unfold Tools_ReadCpuid
  rcases h with h | h
  · rw [if_neg (by omega)]
  · by_cases hleaf : leaf < MAX_SIMULATED_LEAFS
    · rw [if_pos hleaf, if_neg (by omega)]
    · rw [if_neg hleaf]

/-- C9 witness: leaf 0x20, subleaf 0, on the empty state. -/
theorem claim_C9_out_of_range_reads_zero_witness :
    (MAX_SIMULATED_LEAFS ≤ 32 ∨ MAX_SIMULATED_SUBLEAFS ≤ 0) ∧
    Tools_ReadCpuid gZero 32 0 = Regs.zero :=
  ⟨Or.inl (by decide),
   claim_C9_out_of_range_reads_zero gZero 32 0 (Or.inl (by decide))⟩

/-- C10: in simulated mode, binding affinity to a processor number at or
beyond the simulated processor count changes nothing — the state is
returned unmodified, so every subsequent read answers exactly as before. -/
theorem claim_C10_set_affinity_out_of_range_noop (g : GlobalData) (p : Nat)
    (h : g.numberOfSimulatedProcessors ≤ p) :
    Tools_SetAffinity g p = g ∧
    ∀ leaf subleaf,
      Tools_ReadCpuid (Tools_SetAffinity g p) leaf subleaf =
        Tools_ReadCpuid g leaf subleaf := by
  have heq : Tools_SetAffinity g p = g := by
    unfold Tools_SetAffinity
    rw [if_neg (by omega)]
  exact ⟨heq, fun _ _ => by rw [heq]⟩

/-- C10 witness: processor 3 on the empty state (count 0). -/
theorem claim_C10_set_affinity_out_of_range_noop_witness :
    gZero.numberOfSimulatedProcessors ≤ 3 ∧ Tools_SetAffinity gZero 3 = gZero :=
  ⟨by decide, (claim_C10_set_affinity_out_of_range_noop gZero 3 (by decide)).1⟩

/-! ## C2: the domain mask matrix -/

lemma updMat_same (m : Nat → Nat → Nat) (i j v : Nat) : updMat m i j v i j = v := by
  simp [updMat]

lemma updMat_ne (m : Nat → Nat → Nat) (i j v a b : Nat) (h : ¬(a = i ∧ b = j)) :
    updMat m i j v a b = m a b := by
  simp [updMat, h]

lemma diagAux_lt (shifts : Nat → Nat) (steps : Nat) :
    ∀ i prev m a b, a < i → diagAux shifts steps i prev m a b = m a b := by
  induction steps with
  | zero => intro i prev m a b _; rfl
  | succ steps ih =>
    intro i prev m a b h
    rw [diagAux, ih (i + 1) (shifts i) _ a b (by omega), updMat_ne]
    omega

/-- Value of the diagonal entries after the first loop: entry `(k, k)` holds
the complement mask built from the running `PreviousBit`, which is the
previous slot's shift (or the incoming `prev` for the first slot). -/
lemma diagAux_diag (shifts : Nat → Nat) (steps : Nat) :
    ∀ i prev m k, i ≤ k → k < i + steps →
      diagAux shifts steps i prev m k k =
        not32 ((1 <<< (if k = i then prev else shifts (k - 1))) - 1) := by
  induction steps with
  | zero => intro i prev m k h1 h2; omega
  | succ steps ih =>
    intro i prev m k h1 h2
    rw [diagAux]
    by_cases hk : k = i
    · subst hk
      rw [diagAux_lt shifts steps (k + 1) _ _ k k (by omega), updMat_same, if_pos rfl]
    · rw [ih (i + 1) (shifts i) _ k (by omega) (by omega), if_neg hk]
      have : (if k = i + 1 then shifts i else shifts (k - 1)) = shifts (k - 1) := by
        by_cases hk1 : k = i + 1
        · rw [if_pos hk1, hk1]; simp
        · rw [if_neg hk1]
      rw [this]

lemma diagAux_offdiag (shifts : Nat → Nat) (steps : Nat) :
    ∀ i prev m a b, a ≠ b → diagAux shifts steps i prev m a b = m a b := by
  induction steps with
  | zero => intro i prev m a b _; rfl
  | succ steps ih =>
    intro i prev m a b h
    rw [diagAux, ih (i + 1) (shifts i) _ a b h, updMat_ne]
    rintro ⟨rfl, rfl⟩
    exact h rfl

lemma offdiagInner_ne (i steps : Nat) :
    ∀ j m a b, a ≠ i → offdiagInner i steps j m a b = m a b := by
  induction steps with
  | zero => intro j m a b _; rfl
  | succ steps ih =>
    intro j m a b h
    rw [offdiagInner, ih (j + 1) _ a b h, updMat_ne]
    rintro ⟨rfl, rfl⟩
    exact h rfl

lemma offdiagInner_lt (i steps : Nat) :
    ∀ j m a b, b < j → offdiagInner i steps j m a b = m a b := by
  induction steps with
  | zero => intro j m a b _; rfl
  | succ steps ih =>
    intro j m a b h
    rw [offdiagInner, ih (j + 1) _ a b (by omega), updMat_ne]
    rintro ⟨rfl, rfl⟩
    omega

lemma offdiagInner_diag (i steps j : Nat) (m : Nat → Nat → Nat) (a : Nat) (h : i < j) :
    offdiagInner i steps j m a a = m a a := by
  by_cases ha : a = i
  · subst ha
    exact offdiagInner_lt _ steps j m a a (by omega)
  · exact offdiagInner_ne i steps j m a a ha

/-- Value of the relative masks written by the inner loop: since every
write targets row `i` strictly right of the diagonal, the two diagonal
reads always see the incoming matrix. -/
lemma offdiagInner_val (i steps : Nat) :
    ∀ j m b, i < j → j ≤ b → b < j + steps →
      offdiagInner i steps j m i b = not32 (m b b) &&& m i i := by
  induction steps with
  | zero => intro j m b _ h2 h3; omega
  | succ steps ih =>
    intro j m b h1 h2 h3
    rw [offdiagInner]
    by_cases hb : b = j
    · subst hb
      rw [offdiagInner_lt i steps (b + 1) _ i b (by omega), updMat_same]
    · rw [ih (j + 1) _ b (by omega) (by omega) (by omega),
          updMat_ne _ _ _ _ b b (by omega), updMat_ne _ _ _ _ i i (by omega)]

lemma offdiagAux_lt (n steps : Nat) :
    ∀ i m a b, a < i → offdiagAux n steps i m a b = m a b := by
  induction steps with
  | zero => intro i m a b _; rfl
  | succ steps ih =>
    intro i m a b h
    rw [offdiagAux, ih (i + 1) _ a b (by omega), offdiagInner_ne _ _ _ _ _ _ (by omega)]

lemma offdiagAux_diag (n steps : Nat) :
    ∀ i m a, offdiagAux n steps i m a a = m a a := by
  induction steps with
  | zero => intro i m a; rfl
  | succ steps ih =>
    intro i m a
    rw [offdiagAux, ih (i + 1), offdiagInner_diag i (n - i) (i + 1) m a (by omega)]

lemma offdiagAux_val (n steps : Nat) :
    ∀ i m a b, i ≤ a → a < i + steps → a < b → b ≤ n →
      offdiagAux n steps i m a b = not32 (m b b) &&& m a a := by
  induction steps with
  | zero => intro i m a b _ h2 _ _; omega
  | succ steps ih =>
    intro i m a b h1 h2 h3 h4
    rw [offdiagAux]
    by_cases ha : a = i
    · subst ha
      rw [offdiagAux_lt n steps (a + 1) _ a b (by omega)]
      exact offdiagInner_val a (n - a) (a + 1) m b (by omega) (by omega) (by omega)
    · rw [ih (i + 1) _ a b (by omega) (by omega) h3 h4,
          offdiagInner_diag i (n - i) (i + 1) m b (by omega),
          offdiagInner_diag i (n - i) (i + 1) m a (by omega)]

/-- C2: for every shift list, each diagonal entry `(i, i)` of the produced
matrix is the 32-bit NOT of `(1 << previous level's cumulative shift) - 1`
(previous shift 0 for level 0), and each off-diagonal entry `(i, j)` with
`i < j ≤ PackageDomainIndex` is `(~M[j][j]) & M[i][i]`. -/
theorem claim_C2_domain_mask_matrix
    (shifts : Nat → Nat) (n : Nat) (m0 : Nat → Nat → Nat) (i j : Nat) :
    (i ≤ n → ParseCpu_Internal_CreateDomainMaskMatrix shifts n m0 i i =
      not32 ((1 <<< (if i = 0 then 0 else shifts (i - 1))) - 1)) ∧
    (i < j → j ≤ n → ParseCpu_Internal_CreateDomainMaskMatrix shifts n m0 i j =
      not32 (ParseCpu_Internal_CreateDomainMaskMatrix shifts n m0 j j) &&&
        ParseCpu_Internal_CreateDomainMaskMatrix shifts n m0 i i) := by
  unfold ParseCpu_Internal_CreateDomainMaskMatrix
  constructor
  · intro h
    rw [offdiagAux_diag, diagAux_diag shifts (n + 1) 0 0 m0 i (by omega) (by omega)]
  · intro h1 h2
    rw [offdiagAux_val n n 0 _ i j (by omega) (by omega) h1 h2,
        offdiagAux_diag, offdiagAux_diag]

/-- Concrete ascending shift list 1, 3, 5, ... used by the C2 witness. -/
def sampleShifts : Nat → Nat := fun i => 2 * i + 1

/-- C2 witness: the matrix claim applied at a concrete 3-level layout. -/
theorem claim_C2_domain_mask_matrix_witness :
    ParseCpu_Internal_CreateDomainMaskMatrix sampleShifts 2 (fun _ _ => 0) 1 1 =
      not32 ((1 <<< (if 1 = 0 then 0 else sampleShifts (1 - 1))) - 1) ∧
    ParseCpu_Internal_CreateDomainMaskMatrix sampleShifts 2 (fun _ _ => 0) 0 1 =
      not32 (ParseCpu_Internal_CreateDomainMaskMatrix sampleShifts 2 (fun _ _ => 0) 1 1) &&&
        ParseCpu_Internal_CreateDomainMaskMatrix sampleShifts 2 (fun _ _ => 0) 0 0 :=
  ⟨(claim_C2_domain_mask_matrix sampleShifts 2 (fun _ _ => 0) 1 1).1 (by decide),
   (claim_C2_domain_mask_matrix sampleShifts 2 (fun _ _ => 0) 0 1).2 (by decide) (by decide)⟩

/-! ## C3: many-domain decoding, append vs collapse -/

/-- A known domain code (the seven switch cases) appends a new
(type, shift) level. -/
lemma manyDomainStep_known (ctx : ManyDomainCtx) (r : Regs)
    (h : domainTypeOf r = 0 ∨ domainTypeOf r = 1 ∨ domainTypeOf r = 2 ∨
         domainTypeOf r = 3 ∨ domainTypeOf r = 4 ∨ domainTypeOf r = 5 ∨
         domainTypeOf r = 6) :
    (manyDomainStep ctx r).levels = ctx.levels ++ [(domainTypeOf r, domainShiftOf r)] := by
  unfold manyDomainStep
  rw [if_pos h]
  unfold ManyDomainCtx.levels
  rw [List.range_succ, List.map_append]
  simp only [List.map_cons, List.map_nil]
  congr 1
  · apply List.map_congr_left
    intro k hk
    have hk' : k < ctx.packageDomainIndex := List.mem_range.mp hk
    simp [updFn, Nat.ne_of_lt hk']
  · simp [updFn]

/-- Any other domain code overwrites the shift of the most recently
appended level (the entry at `PackageDomainIndex - 1`), appending nothing. -/
lemma manyDomainStep_unknown (ctx : ManyDomainCtx) (r : Regs)
    (h : ¬(domainTypeOf r = 0 ∨ domainTypeOf r = 1 ∨ domainTypeOf r = 2 ∨
           domainTypeOf r = 3 ∨ domainTypeOf r = 4 ∨ domainTypeOf r = 5 ∨
           domainTypeOf r = 6))
    (hidx : 1 ≤ ctx.packageDomainIndex) :
    (manyDomainStep ctx r).levels =
      ctx.levels.set (ctx.packageDomainIndex - 1)
        (ctx.shiftValueDomain (ctx.packageDomainIndex - 1), domainShiftOf r) := by
  unfold manyDomainStep
  rw [if_neg h]
  unfold ManyDomainCtx.levels
  apply List.ext_getElem
  · simp
  · intro k h1 h2
    simp only [List.getElem_map, List.getElem_range, List.getElem_set]
    simp only [List.length_map, List.length_range] at h1
    by_cases hk : k = ctx.packageDomainIndex - 1
    · subst hk
      simp [updFn]
    · rw [if_neg (by omega)]
      simp [updFn, hk]

/-- Subleaf 0 of the C3 example: LogicalProcessor (type 1), shift 1,
EBX non-zero. -/
def c3reg0 : Regs := ⟨1, 1, 256, 0⟩

/-- Subleaf 1 of the C3 example: unknown type 99, shift 2 (`99 << 8`). -/
def c3reg1 : Regs := ⟨2, 1, 25344, 0⟩

/-- Subleaf 2 of the C3 example: Core (type 2), shift 3. -/
def c3reg2 : Regs := ⟨3, 1, 512, 0⟩

/-- C3: in many-domain decoding a known-typed subleaf (codes 0..6,
Invalid included) appends a (type, shift) level, any other type overwrites
the shift of the most recently appended level (well-defined because the
sequence starts with a LogicalProcessor subleaf, so at least one level
exists), and the example sequence LogicalProcessor/1, Unknown(99)/2,
Core/3, terminator yields exactly the two levels
LogicalProcessor@2 and Core@3. -/
theorem claim_C3_many_domain_collapse :
    (∀ (ctx : ManyDomainCtx) (r : Regs),
      (domainTypeOf r = 0 ∨ domainTypeOf r = 1 ∨ domainTypeOf r = 2 ∨
       domainTypeOf r = 3 ∨ domainTypeOf r = 4 ∨ domainTypeOf r = 5 ∨
       domainTypeOf r = 6) →
      (manyDomainStep ctx r).levels =
        ctx.levels ++ [(domainTypeOf r, domainShiftOf r)]) ∧
    (∀ (ctx : ManyDomainCtx) (r : Regs),
      ¬(domainTypeOf r = 0 ∨ domainTypeOf r = 1 ∨ domainTypeOf r = 2 ∨
        domainTypeOf r = 3 ∨ domainTypeOf r = 4 ∨ domainTypeOf r = 5 ∨
        domainTypeOf r = 6) →
      1 ≤ ctx.packageDomainIndex →
      (manyDomainStep ctx r).levels =
        ctx.levels.set (ctx.packageDomainIndex - 1)
          (ctx.shiftValueDomain (ctx.packageDomainIndex - 1), domainShiftOf r)) ∧
    (manyDomainParse [c3reg0, c3reg1, c3reg2, Regs.zero] ManyDomainCtx.init).levels =
      [(1, 2), (2, 3)] ∧
    (manyDomainParse [c3reg0, c3reg1, c3reg2, Regs.zero]
        ManyDomainCtx.init).packageDomainIndex = 2 := by
  refine ⟨manyDomainStep_known, manyDomainStep_unknown, ?_, by decide⟩
  decide

/-- C3 witness: the append part at the example's first subleaf and the
overwrite part at its second. -/
theorem claim_C3_many_domain_collapse_witness :
    (manyDomainStep ManyDomainCtx.init c3reg0).levels =
      ManyDomainCtx.init.levels ++ [(domainTypeOf c3reg0, domainShiftOf c3reg0)] ∧
    (manyDomainStep (manyDomainStep ManyDomainCtx.init c3reg0) c3reg1).levels =
      (manyDomainStep ManyDomainCtx.init c3reg0).levels.set
        ((manyDomainStep ManyDomainCtx.init c3reg0).packageDomainIndex - 1)
        ((manyDomainStep ManyDomainCtx.init c3reg0).shiftValueDomain
          ((manyDomainStep ManyDomainCtx.init c3reg0).packageDomainIndex - 1),
         domainShiftOf c3reg1) :=
  ⟨claim_C3_many_domain_collapse.1 ManyDomainCtx.init c3reg0 (by decide),
   claim_C3_many_domain_collapse.2.1 (manyDomainStep ManyDomainCtx.init c3reg0) c3reg1
     (by decide) (by decide)⟩

/-! ## C6: three-domain decoding -/

/-- Shift field of the last subleaf of a list, with default `d` when the
list is empty (the loop accumulator's incoming value). -/
def lastShiftD (l : List Regs) (d : Nat) : Nat :=
  match l.getLast? with
  | some r => domainShiftOf r
  | none => d

lemma lastShiftD_cons (r : Regs) (l : List Regs) (d : Nat) :
    lastShiftD (r :: l) d = lastShiftD l (domainShiftOf r) := by
  cases l with
  | nil => rfl
  | cons a l =>
    obtain ⟨x, hx⟩ : ∃ x, (a :: l).getLast? = some x := by
      cases h : (a :: l).getLast? with
      | none => simp at h
      | some x => exact ⟨x, rfl⟩
    simp [lastShiftD, List.getLast?_cons_cons, hx]

/-- The subleafs the decoder actually enumerates: the longest prefix with
non-zero EBX (the loop's sole termination condition). -/
def enumeratedSubleafs (l : List Regs) : List Regs :=
  l.takeWhile (fun r => r.ebx != 0)

lemma enumeratedSubleafs_cons_stop (r : Regs) (l : List Regs) (h : r.ebx = 0) :
    enumeratedSubleafs (r :: l) = [] := by
  unfold enumeratedSubleafs
  rw [List.takeWhile_cons]
  simp [h]

lemma enumeratedSubleafs_cons_go (r : Regs) (l : List Regs) (h : r.ebx ≠ 0) :
    enumeratedSubleafs (r :: l) = r :: enumeratedSubleafs l := by
  unfold enumeratedSubleafs
  rw [List.takeWhile_cons]
  simp [h]

lemma threeDomainLoop_spec (l : List Regs) : ∀ pkg lp,
    threeDomainLoop l pkg lp =
      (lastShiftD (enumeratedSubleafs l) pkg,
       lastShiftD ((enumeratedSubleafs l).filter (fun r => domainTypeOf r == 1)) lp) := by
  induction l with
  | nil => intro pkg lp; rfl
  | cons r rest ih =>
    intro pkg lp
    rw [threeDomainLoop]
    by_cases hebx : r.ebx = 0
    · rw [if_pos hebx, enumeratedSubleafs_cons_stop r rest hebx]
      rfl
    · rw [if_neg hebx, enumeratedSubleafs_cons_go r rest hebx, ih, List.filter_cons]
      by_cases hty : domainTypeOf r = 1 <;> simp [hty, lastShiftD_cons]

/-- Following the claim's words: the shift of the last enumerated subleaf,
0 when none was enumerated. -/
def lastSubleafShift (l : List Regs) : Nat := lastShiftD l 0

/-- Following the claim's words: the shift of the last enumerated subleaf
whose domain type is LogicalProcessor (code 1), 0 when there is none. -/
def lastLogicalProcessorShift (l : List Regs) : Nat :=
  lastShiftD (l.filter (fun r => domainTypeOf r == 1)) 0

/-- C6: for every subleaf sequence, the three-domain decoder reports as
package shift the shift of the last enumerated subleaf (whatever its
domain type) and as logical-processor shift the shift of the last
LogicalProcessor-typed enumerated subleaf (0 if none). -/
theorem claim_C6_three_domain_shifts (subleafs : List Regs) :
    ParseCpu_CpuidThreeDomainExample subleafs =
      (lastSubleafShift (enumeratedSubleafs subleafs),
       lastLogicalProcessorShift (enumeratedSubleafs subleafs)) :=
  threeDomainLoop_spec subleafs 0 0

/-! ## C4, C5, C7: resource grouping -/

lemma find_cons (e : CacheEntry) (rest : List CacheEntry) (cid : Nat) (r : Regs) :
    ParseCache_Internal_FindMatchingCacheEntry (e :: rest) cid r =
      if e.cacheId = cid ∧ e.cachedCpuidRegisters = r then 0
      else if ParseCache_Internal_FindMatchingCacheEntry rest cid r = INVALID_CACHE_INDEX
        then INVALID_CACHE_INDEX
        else ParseCache_Internal_FindMatchingCacheEntry rest cid r + 1 := rfl

lemma find_lt_length (l : List CacheEntry) (cid : Nat) (r : Regs)
    (h : ParseCache_Internal_FindMatchingCacheEntry l cid r ≠ INVALID_CACHE_INDEX) :
    ParseCache_Internal_FindMatchingCacheEntry l cid r < l.length := by
  induction l with
  | nil => exact absurd rfl h
  | cons e rest ih =>
    rw [ParseCache_Internal_FindMatchingCacheEntry] at h ⊢
    by_cases hm : e.cacheId = cid ∧ e.cachedCpuidRegisters = r
    · rw [if_pos hm]
      simp
    · rw [if_neg hm] at h ⊢
      by_cases ht : ParseCache_Internal_FindMatchingCacheEntry rest cid r = INVALID_CACHE_INDEX
      · simp only [ht, if_pos rfl] at h
        exact absurd rfl h
      · simp only [if_neg ht] at h ⊢
        have := ih ht
        simp only [List.length_cons]
        omega

/-- The search fails exactly when no entry carries both the requested id
and the identical snapshot (for any list shorter than the sentinel). -/
lemma find_invalid_iff (l : List CacheEntry) (cid : Nat) (r : Regs)
    (hlen : l.length < INVALID_CACHE_INDEX) :
    ParseCache_Internal_FindMatchingCacheEntry l cid r = INVALID_CACHE_INDEX ↔
      ∀ e ∈ l, ¬(e.cacheId = cid ∧ e.cachedCpuidRegisters = r) := by
  induction l with
  | nil => simp [ParseCache_Internal_FindMatchingCacheEntry]
  | cons e rest ih =>
    have hlen' : rest.length < INVALID_CACHE_INDEX := by
      simp only [List.length_cons] at hlen
      omega
    rw [ParseCache_Internal_FindMatchingCacheEntry]
    by_cases hm : e.cacheId = cid ∧ e.cachedCpuidRegisters = r
    · rw [if_pos hm]
      constructor
      · intro h0
        exact absurd h0.symm (by unfold INVALID_CACHE_INDEX; omega)
      · intro hall
        exact absurd hm (hall e (List.mem_cons_self e rest))
    · rw [if_neg hm]
      by_cases ht : ParseCache_Internal_FindMatchingCacheEntry rest cid r = INVALID_CACHE_INDEX
      · rw [if_pos ht]
        simp only [List.mem_cons]
        constructor
        · intro _ x hx
          rcases hx with rfl | hx
          · exact hm
          · exact (ih hlen').mp ht x hx
        · intro _
          trivial
      · rw [if_neg ht]
        have hlt := find_lt_length rest cid r ht
        constructor
        · intro hcontra
          exfalso
          omega
        · intro hall
          exfalso
          apply ht
          exact (ih hlen').mpr (fun x hx => hall x (List.mem_cons_of_mem e hx))

/-- A successful search returns the index of an entry matching both the id
and the snapshot. -/
lemma find_spec (l : List CacheEntry) (cid : Nat) (r : Regs)
    (h : ParseCache_Internal_FindMatchingCacheEntry l cid r ≠ INVALID_CACHE_INDEX) :
    ∃ e, l[ParseCache_Internal_FindMatchingCacheEntry l cid r]? = some e ∧
      e.cacheId = cid ∧ e.cachedCpuidRegisters = r := by
  induction l with
  | nil => exact absurd rfl h
  | cons e rest ih =>
    rw [ParseCache_Internal_FindMatchingCacheEntry] at h ⊢
    by_cases hm : e.cacheId = cid ∧ e.cachedCpuidRegisters = r
    · rw [if_pos hm]
      exact ⟨e, by simp, hm⟩
    · rw [if_neg hm] at h ⊢
      by_cases ht : ParseCache_Internal_FindMatchingCacheEntry rest cid r = INVALID_CACHE_INDEX
      · rw [if_pos ht] at h
        exact absurd rfl h
      · rw [if_neg ht]
        obtain ⟨x, hx, hxm⟩ := ih ht
        exact ⟨x, by simpa using hx, hxm⟩

/-- Recording a member changes neither ids nor snapshots, so the search is
unaffected. -/
lemma find_appendMemberAt (l : List CacheEntry) (cid : Nat) (r : Regs) :
    ∀ i a, ParseCache_Internal_FindMatchingCacheEntry (appendMemberAt l i a) cid r =
      ParseCache_Internal_FindMatchingCacheEntry l cid r := by
  induction l with
  | nil => intro i a; rfl
  | cons e rest ih =>
    intro i a
    cases i with
    | zero =>
      show ParseCache_Internal_FindMatchingCacheEntry
        ({ e with members := e.members ++ [a] } :: rest) cid r = _
      rw [ParseCache_Internal_FindMatchingCacheEntry,
          ParseCache_Internal_FindMatchingCacheEntry]
    | succ n =>
      show ParseCache_Internal_FindMatchingCacheEntry
        (e :: appendMemberAt rest n a) cid r = _
      rw [ParseCache_Internal_FindMatchingCacheEntry,
          ParseCache_Internal_FindMatchingCacheEntry, ih n a]

lemma find_append_left (l l2 : List CacheEntry) (cid : Nat) (r : Regs)
    (h : ParseCache_Internal_FindMatchingCacheEntry l cid r ≠ INVALID_CACHE_INDEX) :
    ParseCache_Internal_FindMatchingCacheEntry (l ++ l2) cid r =
      ParseCache_Internal_FindMatchingCacheEntry l cid r := by
  induction l with
  | nil => exact absurd rfl h
  | cons e rest ih =>
    rw [find_cons] at h
    rw [List.cons_append, find_cons, find_cons]
    by_cases hm : e.cacheId = cid ∧ e.cachedCpuidRegisters = r
    · simp only [if_pos hm]
    · simp only [if_neg hm] at h ⊢
      by_cases ht : ParseCache_Internal_FindMatchingCacheEntry rest cid r = INVALID_CACHE_INDEX
      · rw [if_pos ht] at h
        exact absurd rfl h
      · rw [ih ht]

/-- Searching past one appended entry when the prefix fails: the result is
the new index when the appended entry matches, the sentinel otherwise. -/
lemma find_append_one (l : List CacheEntry) (e : CacheEntry) (cid : Nat) (r : Regs)
    (hlen : l.length < INVALID_CACHE_INDEX)
    (h : ParseCache_Internal_FindMatchingCacheEntry l cid r = INVALID_CACHE_INDEX) :
    ParseCache_Internal_FindMatchingCacheEntry (l ++ [e]) cid r =
      if e.cacheId = cid ∧ e.cachedCpuidRegisters = r then l.length
      else INVALID_CACHE_INDEX := by
  induction l with
  | nil =>
    rw [List.nil_append, ParseCache_Internal_FindMatchingCacheEntry]
    by_cases hm : e.cacheId = cid ∧ e.cachedCpuidRegisters = r
    · rw [if_pos hm, if_pos hm]
      rfl
    · rw [if_neg hm, if_neg hm]
      rw [show ParseCache_Internal_FindMatchingCacheEntry [] cid r =
        INVALID_CACHE_INDEX from rfl, if_pos rfl]
  | cons a rest ih =>
    have hlen' : rest.length < INVALID_CACHE_INDEX := by
      simp only [List.length_cons] at hlen
      omega
    rw [ParseCache_Internal_FindMatchingCacheEntry] at h
    by_cases hm : a.cacheId = cid ∧ a.cachedCpuidRegisters = r
    · rw [if_pos hm] at h
      exact absurd h.symm (by unfold INVALID_CACHE_INDEX; omega)
    · rw [if_neg hm] at h
      have ht : ParseCache_Internal_FindMatchingCacheEntry rest cid r =
          INVALID_CACHE_INDEX := by
        by_contra ht
        rw [if_neg ht] at h
        have := find_lt_length rest cid r ht
        omega
      rw [List.cons_append, ParseCache_Internal_FindMatchingCacheEntry, if_neg hm,
          ih hlen' ht]
      by_cases he : e.cacheId = cid ∧ e.cachedCpuidRegisters = r
      · rw [if_pos he, if_pos he, if_neg (by omega), List.length_cons]
      · rw [if_neg he, if_neg he, if_pos rfl]

lemma listModify_length {α : Type} (l : List α) : ∀ (i : Nat) (f : α → α),
    (listModify l i f).length = l.length := by
  induction l with
  | nil => intro i f; rfl
  | cons e rest ih =>
    intro i f
    cases i with
    | zero => rfl
    | succ n => simp [listModify, ih n f]

lemma listModify_append_at_length {α : Type} (l : List α) (e : α) (f : α → α) :
    listModify (l ++ [e]) l.length f = l ++ [f e] := by
  induction l with
  | nil => rfl
  | cons a rest ih => simp [listModify, ih]

lemma appendMemberAt_length (l : List CacheEntry) (i a : Nat) :
    (appendMemberAt l i a).length = l.length :=
  listModify_length l i _

lemma totalMembers_appendMemberAt (l : List CacheEntry) : ∀ (i a : Nat), i < l.length →
    totalMembers (appendMemberAt l i a) = totalMembers l + 1 := by
  induction l with
  | nil => intro i a h; simp at h
  | cons e rest ih =>
    intro i a h
    cases i with
    | zero =>
      show totalMembers ({ e with members := e.members ++ [a] } :: rest) = _
      simp [totalMembers]
      omega
    | succ n =>
      show totalMembers (e :: appendMemberAt rest n a) = _
      have hn : n < rest.length := by
        simp only [List.length_cons] at h
        omega
      simp only [totalMembers, List.map_cons, List.sum_cons] at ih ⊢
      rw [ih n a hn]
      omega

lemma totalMembers_append_one (l : List CacheEntry) (e : CacheEntry) :
    totalMembers (l ++ [e]) = totalMembers l + e.members.length := by
  simp [totalMembers]

/-- On a successful lookup the processor is recorded on the found group and
nothing else changes. -/
lemma processCacheSubleaf_found (entries : List CacheEntry) (a : Nat) (r : Regs)
    (h : ParseCache_Internal_FindMatchingCacheEntry entries (cacheGroupId a r) r ≠
      INVALID_CACHE_INDEX) :
    processCacheSubleaf entries a r =
      appendMemberAt entries
        (ParseCache_Internal_FindMatchingCacheEntry entries (cacheGroupId a r) r) a := by
  unfold processCacheSubleaf
  simp only []
  rw [if_neg h]
  simp only []
  rw [if_pos h]

/-- On a failed lookup a fresh group is appended unconditionally (the add
routine has no capacity check) and the processor is recorded on it. -/
lemma processCacheSubleaf_notfound (entries : List CacheEntry) (a : Nat) (r : Regs)
    (h : ParseCache_Internal_FindMatchingCacheEntry entries (cacheGroupId a r) r =
      INVALID_CACHE_INDEX)
    (hlen : entries.length ≠ INVALID_CACHE_INDEX) :
    processCacheSubleaf entries a r =
      entries ++ [{ cacheId := cacheGroupId a r, cacheMask := cacheMaskOf r,
                    cachedCpuidRegisters := r, members := [a] }] := by
  unfold processCacheSubleaf
  simp only []
  rw [if_pos h]
  unfold ParseCache_Internal_AddCacheEntry
  simp only []
  rw [if_pos hlen]
  unfold appendMemberAt
  rw [listModify_append_at_length]
  rfl

lemma cacheIndexUsed_def (entries : List CacheEntry) (a : Nat) (r : Regs) :
    cacheIndexUsed entries a r =
      if ParseCache_Internal_FindMatchingCacheEntry entries (cacheGroupId a r) r =
        INVALID_CACHE_INDEX
      then entries.length
      else ParseCache_Internal_FindMatchingCacheEntry entries (cacheGroupId a r) r := rfl

/-- C4: a resource subleaf merges into an existing group iff some group
has both the same masked id and a byte-identical snapshot; and two
resources with equal group id but different snapshots always land in two
distinct groups (the second one never records membership on the group the
first one used). -/
theorem claim_C4_group_match_id_and_snapshot :
    (∀ (entries : List CacheEntry) (cacheId : Nat) (r : Regs),
      entries.length < INVALID_CACHE_INDEX →
      (ParseCache_Internal_FindMatchingCacheEntry entries cacheId r ≠ INVALID_CACHE_INDEX ↔
        ∃ e ∈ entries, e.cacheId = cacheId ∧ e.cachedCpuidRegisters = r)) ∧
    (∀ (entries : List CacheEntry) (a1 a2 : Nat) (r1 r2 : Regs),
      entries.length < INVALID_CACHE_INDEX →
      cacheGroupId a1 r1 = cacheGroupId a2 r2 →
      r1 ≠ r2 →
      cacheIndexUsed (processCacheSubleaf entries a1 r1) a2 r2 ≠
        cacheIndexUsed entries a1 r1) := by
  constructor
  · intro entries cacheId r hlen
    rw [not_iff_comm, find_invalid_iff entries cacheId r hlen]
    push_neg
    constructor
    · intro h e he
      exact h e he
    · intro h e he
      exact h e he
  · intro entries a1 a2 r1 r2 hlen hid hr
    by_cases h1 : ParseCache_Internal_FindMatchingCacheEntry entries (cacheGroupId a1 r1) r1 =
        INVALID_CACHE_INDEX
    · have hlen' : entries.length ≠ INVALID_CACHE_INDEX := by omega
      have hs1 := processCacheSubleaf_notfound entries a1 r1 h1 hlen'
      have hidx1 : cacheIndexUsed entries a1 r1 = entries.length := by
        rw [cacheIndexUsed_def, if_pos h1]
      rw [hidx1, hs1]
      by_cases hc : ParseCache_Internal_FindMatchingCacheEntry entries (cacheGroupId a2 r2) r2 =
          INVALID_CACHE_INDEX
      · have := find_append_one entries
          { cacheId := cacheGroupId a1 r1, cacheMask := cacheMaskOf r1,
            cachedCpuidRegisters := r1, members := [a1] } (cacheGroupId a2 r2) r2 hlen hc
        rw [if_neg (by simp; intro _; exact fun h => hr h)] at this
        rw [cacheIndexUsed_def, if_pos this]
        simp
      · have := find_append_left entries
          [{ cacheId := cacheGroupId a1 r1, cacheMask := cacheMaskOf r1,
             cachedCpuidRegisters := r1, members := [a1] }] (cacheGroupId a2 r2) r2 hc
        rw [cacheIndexUsed_def, this, if_neg hc]
        have := find_lt_length entries (cacheGroupId a2 r2) r2 hc
        omega
    · have hs1 := processCacheSubleaf_found entries a1 r1 h1
      have hidx1 : cacheIndexUsed entries a1 r1 =
          ParseCache_Internal_FindMatchingCacheEntry entries (cacheGroupId a1 r1) r1 := by
        rw [cacheIndexUsed_def, if_neg h1]
      rw [hidx1, hs1]
      rw [cacheIndexUsed_def, find_appendMemberAt]
      by_cases hc : ParseCache_Internal_FindMatchingCacheEntry entries (cacheGroupId a2 r2) r2 =
          INVALID_CACHE_INDEX
      · rw [if_pos hc, appendMemberAt_length]
        have := find_lt_length entries (cacheGroupId a1 r1) r1 h1
        omega
      · rw [if_neg hc]
        intro hcontra
        obtain ⟨e2, he2, he2id, he2r⟩ := find_spec entries (cacheGroupId a2 r2) r2 hc
        obtain ⟨e1, he1, he1id, he1r⟩ := find_spec entries (cacheGroupId a1 r1) r1 h1
        rw [hcontra, he1] at he2
        apply hr
        rw [← he1r, ← he2r, Option.some_inj.mp he2]

/-- A one-entry list and two snapshots used by the cache-claim witnesses. -/
def w4entry : CacheEntry := ⟨7, 0, ⟨1, 2, 3, 4⟩, []⟩

set_option maxRecDepth 10000 in
/-- C4 witness: the match characterization at a concrete one-entry list,
and the two-distinct-groups consequence at two snapshots differing only in
EDX (equal derived group ids). -/
theorem claim_C4_group_match_id_and_snapshot_witness :
    (ParseCache_Internal_FindMatchingCacheEntry [w4entry] 7 ⟨1, 2, 3, 4⟩ ≠
        INVALID_CACHE_INDEX ↔
      ∃ e ∈ [w4entry], e.cacheId = 7 ∧ e.cachedCpuidRegisters = ⟨1, 2, 3, 4⟩) ∧
    cacheIndexUsed (processCacheSubleaf [] 0 ⟨0, 0, 0, 0⟩) 0 ⟨0, 0, 0, 1⟩ ≠
      cacheIndexUsed [] 0 ⟨0, 0, 0, 0⟩ :=
  ⟨claim_C4_group_match_id_and_snapshot.1 [w4entry] 7 ⟨1, 2, 3, 4⟩ (by decide),
   claim_C4_group_match_id_and_snapshot.2 [] 0 0 ⟨0, 0, 0, 0⟩ ⟨0, 0, 0, 1⟩
     (by decide) (by decide) (by decide)⟩

/-- C7: reprocessing the same subleaf (same snapshot, hence same derived
mask and group id) with the same processor id creates no new group, lands
on the same group index, and each processing appends exactly one
membership record. -/
theorem claim_C7_grouping_idempotent (entries : List CacheEntry) (a : Nat) (r : Regs)
    (hlen : entries.length + 1 < INVALID_CACHE_INDEX) :
    (processCacheSubleaf (processCacheSubleaf entries a r) a r).length =
      (processCacheSubleaf entries a r).length ∧
    cacheIndexUsed (processCacheSubleaf entries a r) a r = cacheIndexUsed entries a r ∧
    totalMembers (processCacheSubleaf entries a r) = totalMembers entries + 1 ∧
    totalMembers (processCacheSubleaf (processCacheSubleaf entries a r) a r) =
      totalMembers (processCacheSubleaf entries a r) + 1 := by
  by_cases h1 : ParseCache_Internal_FindMatchingCacheEntry entries (cacheGroupId a r) r =
      INVALID_CACHE_INDEX
  · have hlen' : entries.length ≠ INVALID_CACHE_INDEX := by omega
    have hs1 := processCacheSubleaf_notfound entries a r h1 hlen'
    have hfind1 : ParseCache_Internal_FindMatchingCacheEntry
        (processCacheSubleaf entries a r) (cacheGroupId a r) r = entries.length := by
      rw [hs1, find_append_one entries _ (cacheGroupId a r) r (by omega) h1,
          if_pos ⟨rfl, rfl⟩]
    have hfind1ne : ParseCache_Internal_FindMatchingCacheEntry
        (processCacheSubleaf entries a r) (cacheGroupId a r) r ≠ INVALID_CACHE_INDEX := by
      rw [hfind1]
      omega
    have hs2 := processCacheSubleaf_found (processCacheSubleaf entries a r) a r hfind1ne
    refine ⟨?_, ?_, ?_, ?_⟩
    · rw [hs2, appendMemberAt_length]
    · rw [cacheIndexUsed_def, if_neg hfind1ne, hfind1, cacheIndexUsed_def, if_pos h1]
    · rw [hs1, totalMembers_append_one]
      rfl
    · rw [hs2, hfind1, totalMembers_appendMemberAt]
      rw [hs1]
      simp
  · have hs1 := processCacheSubleaf_found entries a r h1
    have hfind1 : ParseCache_Internal_FindMatchingCacheEntry
        (processCacheSubleaf entries a r) (cacheGroupId a r) r =
        ParseCache_Internal_FindMatchingCacheEntry entries (cacheGroupId a r) r := by
      rw [hs1, find_appendMemberAt]
    have hfind1ne : ParseCache_Internal_FindMatchingCacheEntry
        (processCacheSubleaf entries a r) (cacheGroupId a r) r ≠ INVALID_CACHE_INDEX := by
      rw [hfind1]
      exact h1
    have hs2 := processCacheSubleaf_found (processCacheSubleaf entries a r) a r hfind1ne
    have hlt := find_lt_length entries (cacheGroupId a r) r h1
    refine ⟨?_, ?_, ?_, ?_⟩
    · rw [hs2, appendMemberAt_length]
    · rw [cacheIndexUsed_def, if_neg hfind1ne, hfind1, cacheIndexUsed_def, if_neg h1]
    · rw [hs1, totalMembers_appendMemberAt entries _ a hlt]
    · rw [hs2, hfind1, totalMembers_appendMemberAt]
      rw [hs1, appendMemberAt_length]
      exact hlt

set_option maxRecDepth 10000 in
/-- C7 witness: the idempotence theorem at the empty group list. -/
theorem claim_C7_grouping_idempotent_witness :
    ([] : List CacheEntry).length + 1 < INVALID_CACHE_INDEX ∧
    (cacheIndexUsed (processCacheSubleaf [] 3 ⟨0, 0, 0, 0⟩) 3 ⟨0, 0, 0, 0⟩ =
       cacheIndexUsed [] 3 ⟨0, 0, 0, 0⟩ ∧
     totalMembers (processCacheSubleaf [] 3 ⟨0, 0, 0, 0⟩) = totalMembers [] + 1) :=
  ⟨by decide,
   (claim_C7_grouping_idempotent [] 3 ⟨0, 0, 0, 0⟩ (by decide)).2.1,
   (claim_C7_grouping_idempotent [] 3 ⟨0, 0, 0, 0⟩ (by decide)).2.2.1⟩

/-- Ten distinct groups with distinct snapshots: the capacity
`NumberOfProcessors * MAX_CACHE_PER_LP` for a one-processor system. -/
def c5entry (i : Nat) : CacheEntry := ⟨i, 0, ⟨i, 1, 0, 0⟩, []⟩

/-- See `c5entry`. -/
def capacityFullEntries : List CacheEntry :=
  (List.range (1 * MAX_CACHE_PER_LP)).map c5entry

set_option maxRecDepth 10000 in
/-- C5 evidence: with the group list already at the capacity ceiling
(10 groups for one processor), processing a further distinct resource
subleaf is NOT a no-op: the lookup fails, an eleventh group is appended
(an out-of-bounds store past the `calloc`'d array in the C source, which
has no capacity test), and the processor's membership IS recorded on it. -/
theorem claim_C5_capacity_overflow_appends :
    capacityFullEntries.length = 1 * MAX_CACHE_PER_LP ∧
    ParseCache_Internal_FindMatchingCacheEntry capacityFullEntries
      (cacheGroupId 5 Regs.zero) Regs.zero = INVALID_CACHE_INDEX ∧
    (processCacheSubleaf capacityFullEntries 5 Regs.zero).length =
      1 * MAX_CACHE_PER_LP + 1 ∧
    (processCacheSubleaf capacityFullEntries 5 Regs.zero).getLast? =
      some { cacheId := 5, cacheMask := 4294967295,
             cachedCpuidRegisters := Regs.zero, members := [5] } := by
  decide

/-! ## C8: the identifier gatherer -/

lemma gatherAux_length (regs0 : Regs) : ∀ (n idx : Nat) (g : GlobalData),
    (gatherAux regs0 n idx g).length = n := by
  intro n
  induction n with
  | zero => intro idx g; rfl
  | succ n ih => intro idx g; simp [gatherAux, ih]

/-- The gatherer returns one identifier per processor index below both the
`MAX_PROCESSORS`-capped processor count and the array size. -/
lemma gather_length (g : GlobalData) (arraySize : Nat) :
    (Tools_GatherPlatformApicIds g arraySize).length =
      min (min (Tools_GetNumberOfProcessors g) MAX_PROCESSORS) arraySize := by
  unfold Tools_GatherPlatformApicIds
  rw [gatherAux_length]
  unfold Tools_GetNumberOfProcessors
  by_cases h : g.numberOfSimulatedProcessors > MAX_PROCESSORS
  · rw [if_pos h]
    omega
  · rw [if_neg h]
    omega

lemma gatherAux_get (regs0 : Regs) : ∀ (n idx : Nat) (g : GlobalData) (j : Nat),
    j < n → idx + n ≤ g.numberOfSimulatedProcessors →
    (gatherAux regs0 n idx g)[j]? =
      some (gatherApicIdAt { g with currentProcessorAffinity := idx + j } regs0) := by
  intro n
  induction n with
  | zero => intro idx g j hj _; omega
  | succ n ih =>
    intro idx g j hj hcount
    have hidx : idx < g.numberOfSimulatedProcessors := by omega
    have hset : Tools_SetAffinity g idx = { g with currentProcessorAffinity := idx } := by
      unfold Tools_SetAffinity
      rw [if_pos hidx]
    rw [gatherAux]
    simp only [hset]
    cases j with
    | zero => simp
    | succ j =>
      rw [List.getElem?_cons_succ, ih (idx + 1) _ j (by omega) (by simp; omega)]
      have : idx + 1 + j = idx + (j + 1) := by omega
      rw [this]

/--
The claim's per-processor strategy cascade, stated independently of the
loop: with affinity bound to processor `i`, take EDX of leaf 0x1F when
that leaf is within the reported maximum and its EBX is non-zero; else
EDX of leaf 0xB under the same conditions; else bits [31:24] of EBX of
leaf 1.  The maximum-leaf test reads leaf 0 (whose simulated value does
not depend on the bound processor).
-/
def specPlatformId (g : GlobalData) (i : Nat) : Nat :=
  let gi := { g with currentProcessorAffinity := i }
  let maxLeaf := (Tools_ReadCpuid g 0 0).eax
  if 31 ≤ maxLeaf ∧ (Tools_ReadCpuid gi 31 0).ebx ≠ 0 then
    (Tools_ReadCpuid gi 31 0).edx
  else if 11 ≤ maxLeaf ∧ (Tools_ReadCpuid gi 11 0).ebx ≠ 0 then
    (Tools_ReadCpuid gi 11 0).edx
  else
    (Tools_ReadCpuid gi 1 0).ebx >>> 24

/-- C8 (amended): the gatherer returns a table of length
`min(min(processor count, MAX_PROCESSORS), capacity)` — the count is capped
at `MAX_PROCESSORS` before the capacity bound is applied — and entry `i`
is determined by the 0x1F / 0xB / leaf-1 strategy cascade evaluated with
affinity bound to processor `i`. -/
theorem claim_C8_gather_cascade (g : GlobalData) (arraySize : Nat) :
    (Tools_GatherPlatformApicIds g arraySize).length =
      min (min (Tools_GetNumberOfProcessors g) MAX_PROCESSORS) arraySize ∧
    ∀ i, i < (Tools_GatherPlatformApicIds g arraySize).length →
      (Tools_GatherPlatformApicIds g arraySize)[i]? = some (specPlatformId g i) := by
  refine ⟨gather_length g arraySize, ?_⟩
  intro i hi
  rw [gather_length] at hi
  unfold Tools_GatherPlatformApicIds
  rw [gatherAux_get]
  · simp only [Nat.zero_add]
    rfl
  · unfold Tools_GetNumberOfProcessors at hi ⊢
    split <;> omega
  · unfold Tools_GetNumberOfProcessors at hi ⊢
    split <;> omega

/-- A 1025-processor simulated state: above the `MAX_PROCESSORS` cap. -/
def g1025 : GlobalData :=
  ⟨fun _ _ => Regs.zero, fun _ _ => Regs.zero, fun _ _ => Regs.zero,
   fun _ => 0, 1025, 0⟩

/-- C8, counterexample: the claim's length `min(processor count, capacity)`
fails when the processor count exceeds `MAX_PROCESSORS` (1024): with 1025
simulated processors and capacity 2000 the gatherer returns 1024 entries,
not 1025 — the count is capped at `MAX_PROCESSORS` first. -/
theorem claim_C8_counterexample :
    (Tools_GatherPlatformApicIds g1025 2000).length ≠
      min (Tools_GetNumberOfProcessors g1025) 2000 := by
  rw [gather_length]
  decide

/-- A 1-processor simulated state for the C8 witness. -/
def gOne : GlobalData :=
  ⟨fun _ _ => Regs.zero, fun _ _ => Regs.zero, fun _ _ => Regs.zero,
   fun _ => 0, 1, 0⟩

/-- C8 witness: the amended theorem at the 1-processor state. -/
theorem claim_C8_gather_cascade_witness :
    (Tools_GatherPlatformApicIds gOne 5).length =
      min (min (Tools_GetNumberOfProcessors gOne) MAX_PROCESSORS) 5 ∧
    0 < (Tools_GatherPlatformApicIds gOne 5).length ∧
    (Tools_GatherPlatformApicIds gOne 5)[0]? = some (specPlatformId gOne 0) :=
  ⟨(claim_C8_gather_cascade gOne 5).1, by decide,
   (claim_C8_gather_cascade gOne 5).2 0 (by decide)⟩
